import Mathlib

/-!
Verification of the AskMe question-and-answer subsystem (AskMe.cpp).

The development shallowly embeds the record codec (CSV-style encoding with
comma escaping), the file loaders, and the user / question repository
operations of the source program, and proves the documented properties of
the data model against these definitions.  Strings from the source are
modelled as lists of characters; the two `unordered_map` collections are
modelled as lists of records whose ids are pairwise distinct wherever a
property needs that map invariant; C++ exceptions and error returns are
modelled with `Option` and `Bool`.
-/

set_option linter.unusedVariables false

namespace AskMe

/-- Privilege levels of an account, from `User::Role` (ADMIN = 0, REGULAR_USER = 1). -/
inductive Role where
  | ADMIN
  | REGULAR_USER
deriving DecidableEq

/-- An account record, from class `User`. String fields are lists of characters. -/
structure User where
  id : Int
  name : List Char
  password : List Char
  username : List Char
  email : List Char
  allow_anonymous_questions : Bool
  role : Role
deriving DecidableEq

/-- A question record, from class `Question`; `parent_id = -1` marks a top-level entry. -/
structure Question where
  id : Int
  parent_id : Int
  from_user_id : Int
  to_user_id : Int
  is_anonymous : Bool
  text : List Char
  answer : List Char
deriving DecidableEq

/-! ### Decimal rendering of integers (C++ `std::to_string`) -/

/-- Maps a digit value below ten to its character. -/
def digitToChar (d : Nat) : Char := Char.ofNat (48 + d)

/-- Accumulator loop producing the decimal digits of a natural number; the first
argument is fuel, always called with enough of it. -/
def natToCharsAux : Nat → Nat → List Char → List Char
  | 0, _, acc => acc
  | fuel + 1, n, acc =>
    if n < 10 then digitToChar n :: acc
    else natToCharsAux fuel (n / 10) (digitToChar (n % 10) :: acc)

/-- Decimal digit string of a natural number. -/
def natToChars (n : Nat) : List Char := natToCharsAux (n + 1) n []

/-- Decimal rendering of an int, modelling C++ `std::to_string(int)`. -/
def intToChars (n : Int) : List Char :=
  if n < 0 then '-' :: natToChars n.natAbs else natToChars n.toNat

/-- Rendering of a bool flag as in `User::toString` / `Question::toString` ("1" / "0"). -/
def boolToChars (b : Bool) : List Char := if b then ['1'] else ['0']

/-- Rendering of the role: `std::to_string(role)` writes the enum value 0 or 1. -/
def roleToChars : Role → List Char
  | Role.ADMIN => ['0']
  | Role.REGULAR_USER => ['1']

/-! ### Record codec -/

/-- Doubling of embedded quote characters, modelling the while-loop in
`Question::escapeCommas`. -/
def doubleQuotes : List Char → List Char
  | [] => []
  | c :: rest => if c = '"' then '"' :: '"' :: doubleQuotes rest else c :: doubleQuotes rest

/-- Field escaping from `Question::escapeCommas`: wrap in quotes (doubling embedded
quotes) precisely when the field contains a comma; otherwise return it unchanged. -/
def escapeCommas (s : List Char) : List Char :=
  if s.contains ',' then '"' :: (doubleQuotes s ++ ['"']) else s

/-- Encoding from `User::toString`: fields joined with commas, no escaping of any field. -/
def userToString (u : User) : List Char :=
  intToChars u.id ++ [','] ++ u.name ++ [','] ++ u.password ++ [','] ++ u.username ++ [','] ++
    u.email ++ [','] ++ boolToChars u.allow_anonymous_questions ++ [','] ++ roleToChars u.role

/-- Encoding from `Question::toString`: CSV line with `escapeCommas` applied to the
text and answer fields only. -/
def questionToString (q : Question) : List Char :=
  intToChars q.id ++ [','] ++ intToChars q.parent_id ++ [','] ++
    intToChars q.from_user_id ++ [','] ++ intToChars q.to_user_id ++ [','] ++
    boolToChars q.is_anonymous ++ [','] ++ escapeCommas q.text ++ [','] ++
    escapeCommas q.answer

/-- Character loop of `FileManager::split`: `cur` is the token being built and `inQ`
the inQuotes flag; a quote toggles the flag and is dropped, the delimiter separates
tokens only while the flag is off, every other character is appended. -/
def splitAux (delim : Char) : List Char → List Char → Bool → List (List Char)
  | [], cur, _ => [cur]
  | c :: rest, cur, inQ =>
    if c = '"' then splitAux delim rest cur (!inQ)
    else if c = delim ∧ inQ = false then cur :: splitAux delim rest [] inQ
    else splitAux delim rest (cur ++ [c]) inQ

/-- Tokenizer `FileManager::split`. -/
def split (str : List Char) (delim : Char) : List (List Char) := splitAux delim str [] false

/-- Whitespace test of the C locale, used by `std::stoi` before the number. -/
def isSpaceChar (c : Char) : Bool :=
  c == ' ' || c == '\t' || c == '\n' || c == '\x0b' || c == '\x0c' || c == '\r'

/-- Decimal digit test. -/
def charIsDigit (c : Char) : Bool := '0' ≤ c && c ≤ '9'

/-- Value of a digit string, most significant digit first, on top of accumulator `a`. -/
def valOfDigits : List Char → Nat → Nat
  | [], a => a
  | c :: cs, a => valOfDigits cs (a * 10 + (c.toNat - 48))

/-- Model of `std::stoi` in base 10: skip whitespace, optional sign, then at least one
digit; trailing non-digits are ignored; no digit at all is a failure (the C++ call
throws and the caller skips the line). -/
def stoiChars (s : List Char) : Option Int :=
  match s.dropWhile isSpaceChar with
  | [] => none
  | c :: rest =>
    if c = '-' then
      if (rest.takeWhile charIsDigit) = [] then none
      else some (-(valOfDigits (rest.takeWhile charIsDigit) 0 : Int))
    else if c = '+' then
      if (rest.takeWhile charIsDigit) = [] then none
      else some ((valOfDigits (rest.takeWhile charIsDigit) 0 : Int))
    else
      if ((c :: rest).takeWhile charIsDigit) = [] then none
      else some ((valOfDigits ((c :: rest).takeWhile charIsDigit) 0 : Int))

/-- One line of `FileManager::LoadUsers`: tokenize, require at least 7 fields, parse the
id with stoi; field 5 is the anonymous flag ("1" or "true"), field 6 the role
("0" = admin, anything else a regular user). -/
def parseUserLine (line : List Char) : Option User :=
  match split line ',' with
  | t0 :: t1 :: t2 :: t3 :: t4 :: t5 :: t6 :: _ =>
    match stoiChars t0 with
    | none => none
    | some id =>
      some { id := id, name := t1, password := t2, username := t3, email := t4,
             allow_anonymous_questions := (t5 == ['1'] || t5 == ['t', 'r', 'u', 'e']),
             role := if t6 == ['0'] then Role.ADMIN else Role.REGULAR_USER }
  | _ => none

/-- One line of `FileManager::LoadQuestions`: tokenize, require at least 6 fields,
parse the four numeric fields; the answer is field 6 when present, empty otherwise. -/
def parseQuestionLine (line : List Char) : Option Question :=
  match split line ',' with
  | t0 :: t1 :: t2 :: t3 :: t4 :: t5 :: rest =>
    match stoiChars t0, stoiChars t1, stoiChars t2, stoiChars t3 with
    | some id, some parentId, some fromUserId, some toUserId =>
      some { id := id, parent_id := parentId, from_user_id := fromUserId,
             to_user_id := toUserId,
             is_anonymous := (t4 == ['1'] || t4 == ['t', 'r', 'u', 'e']),
             text := t5,
             answer := match rest with | t6 :: _ => t6 | [] => [] }
    | _, _, _, _ => none
  | _ => none

/-! ### File loaders -/

/-- Map insertion `users.emplace(id, user)`: does nothing when the id is present. -/
def emplaceUser (users : List User) (u : User) : List User :=
  if users.any (fun v => v.id == u.id) then users else users ++ [u]

/-- Map insertion `questions.emplace(id, question)`: does nothing when the id is present. -/
def emplaceQuestion (questions : List Question) (q : Question) : List Question :=
  if questions.any (fun v => v.id == q.id) then questions else questions ++ [q]

/-- Loader `FileManager::LoadUsers` over the list of file lines: parse each line,
skip the malformed ones, emplace the rest. -/
def LoadUsers (lines : List (List Char)) : List User :=
  lines.foldl (fun acc line =>
    match parseUserLine line with
    | none => acc
    | some u => emplaceUser acc u) []

/-- Loader `FileManager::LoadQuestions` over the list of file lines. -/
def LoadQuestions (lines : List (List Char)) : List Question :=
  lines.foldl (fun acc line =>
    match parseQuestionLine line with
    | none => acc
    | some q => emplaceQuestion acc q) []

/-! ### Account repository -/

/-- Allocator `UserManager::GetNextUserID`: 1 when empty, otherwise a fold of `max`
over the keys starting from 0, plus one. -/
def GetNextUserID (users : List User) : Int :=
  if users = [] then 1
  else (users.foldl (fun maxId u => max maxId u.id) 0) + 1

/-- Lookup `UserManager::GetUserByID`; the C++ lookup throws `runtime_error` when the
id is absent, modelled as `none`. -/
def GetUserByID (users : List User) (user_id : Int) : Option User :=
  users.find? (fun u => u.id == user_id)

/-- Removal `UserManager::DeleteUser`: erase by id, report whether something was erased. -/
def DeleteUser (users : List User) (user_id : Int) : Bool × List User :=
  if users.any (fun u => u.id == user_id) then
    (true, users.filter (fun u => !(u.id == user_id)))
  else (false, users)

/-- Combined system state: the map owned by `UserManager` and the map owned by
`QuestionManager`. -/
structure AskMeState where
  users : List User
  questions : List Question
deriving DecidableEq

/-- Account deletion viewed at system level: `UserManager::DeleteUser` reads and writes
the user map and the users file only; the question map owned by `QuestionManager` is
not touched by any statement of that method. -/
def SysDeleteUser (s : AskMeState) (user_id : Int) : Bool × AskMeState :=
  ((DeleteUser s.users user_id).1,
   { users := (DeleteUser s.users user_id).2, questions := s.questions })

/-! ### Thread repository -/

/-- Allocator `QuestionManager::GetNextQuestionID`: 1 when empty, otherwise the key of
the element picked by `max_element` over the map, plus one. -/
def GetNextQuestionID (questions : List Question) : Int :=
  match questions with
  | [] => 1
  | q :: rest => (rest.foldl (fun m x => if m.id < x.id then x else m) q).id + 1

/-- Creation `QuestionManager::AddQuestion`: duplicate id check, recipient lookup,
anonymous-permission gate, then insertion; persistence happens only on the success
path. -/
def AddQuestion (users : List User) (questions : List Question) (question : Question) :
    Bool × List Question :=
  if questions.any (fun q => q.id == question.id) then (false, questions)
  else
    match GetUserByID users question.to_user_id with
    | none => (false, questions)
    | some recipient =>
      if question.is_anonymous && !recipient.allow_anonymous_questions then (false, questions)
      else (true, questions ++ [question])

/-- Parent id resolution inside `QuestionManager::AskQuestion`: a follow-up request
with an unreadable (`none`) or unknown parent id falls back to the sentinel -1. -/
def resolveParentId (questions : List Question) (is_follow_up : Bool)
    (entered : Option Int) : Int :=
  if is_follow_up then
    match entered with
    | some pid => if questions.any (fun q => q.id == pid) then pid else -1
    | none => -1
  else -1

/-- Interactive flow `QuestionManager::AskQuestion` with the console inputs as
parameters: recipient id (-1 cancels), follow-up choice, entered parent id (`none`
models a failed read), question text, and the anonymity choice, which the source
only asks for when the recipient allows anonymous questions. -/
def AskQuestion (users : List User) (questions : List Question) (current_user : User)
    (to_user_id : Int) (is_follow_up : Bool) (entered : Option Int)
    (text : List Char) (anon_choice : Bool) : Bool × List Question :=
  if to_user_id = -1 then (false, questions)
  else
    match GetUserByID users to_user_id with
    | none => (false, questions)
    | some recipient =>
      AddQuestion users questions
        { id := GetNextQuestionID questions,
          parent_id := resolveParentId questions is_follow_up entered,
          from_user_id := current_user.id, to_user_id := to_user_id,
          is_anonymous := recipient.allow_anonymous_questions && anon_choice,
          text := text, answer := [] }

/-- Listing `QuestionManager::GetThreadQuestions`: cancels on -1, reports an error
(`none`) when no entry with the given id exists, otherwise lists the entries whose
parent id matches. -/
def GetThreadQuestions (questions : List Question) (parent_id : Int) :
    Option (List Question) :=
  if parent_id = -1 then none
  else if !(questions.any (fun q => q.id == parent_id)) then none
  else some (questions.filter (fun q => q.parent_id == parent_id))

/-- Erasure of the entry with the given id (`questions.erase(id)` on the map). -/
def eraseQuestionId (questions : List Question) (question_id : Int) : List Question :=
  questions.filter (fun q => !(q.id == question_id))

/-- Denial condition shared by both delete paths in the source: a non-admin actor may
not delete an entry authored by someone else. -/
def deleteDenied (q : Question) (actor : User) : Bool :=
  !(q.from_user_id == actor.id) && actor.role == Role.REGULAR_USER

/-- Cascade `QuestionManager::DeleteThreadQuestions`: collect the ids of the direct
replies, then erase each one the actor is allowed to delete, skipping the others. -/
def DeleteThreadQuestions (questions : List Question) (parent_id : Int) (actor : User) :
    List Question :=
  ((questions.filter (fun q => q.parent_id == parent_id)).map (fun q => q.id)).foldl
    (fun acc tid =>
      match acc.find? (fun q => q.id == tid) with
      | none => acc
      | some thread => if deleteDenied thread actor then acc else eraseQuestionId acc tid)
    questions

/-- Deletion `QuestionManager::DeleteQuestion`: not-found check, permission check on
the entry itself, cascade over its direct replies, then erase the entry. -/
def DeleteQuestion (questions : List Question) (question_id : Int) (actor : User) :
    Bool × List Question :=
  match questions.find? (fun q => q.id == question_id) with
  | none => (false, questions)
  | some question =>
    if deleteDenied question actor then (false, questions)
    else (true, eraseQuestionId (DeleteThreadQuestions questions question_id actor) question_id)

/-! ### Sample records used by concrete instances -/

/-- Question with the given id and default content. -/
def sampleQuestion (i : Int) : Question :=
  { id := i, parent_id := -1, from_user_id := 0, to_user_id := 0,
    is_anonymous := false, text := [], answer := [] }

/-- Account with the given id and default content. -/
def sampleUser (i : Int) : User :=
  { id := i, name := [], password := [], username := [], email := [],
    allow_anonymous_questions := false, role := Role.REGULAR_USER }

/-- Recipient for the anonymous-gate instance: refuses anonymous questions. -/
def gateUser : User :=
  { id := 1, name := ['B'], password := ['p'], username := ['b'], email := ['e'],
    allow_anonymous_questions := false, role := Role.REGULAR_USER }

/-- Anonymous question addressed to `gateUser`. -/
def gateQuestion : Question :=
  { id := 10, parent_id := -1, from_user_id := 2, to_user_id := 1,
    is_anonymous := true, text := ['Q'], answer := [] }

/-! ### Frame property of account deletion (C9) -/

/-- Claim C9: removing an account never changes the question collection:
`UserManager::DeleteUser` acts on the user map alone, with no referential cascade
from accounts to threads, whether or not the account authored or received entries. -/
theorem deleteUser_frame (s : AskMeState) (user_id : Int) :
    (SysDeleteUser s user_id).2.questions = s.questions := rfl

/-! ### Anonymous-permission gate (C4) -/

/-- Claim C4: an anonymous question whose recipient exists but has
`allow_anonymous_questions = false` is rejected by `AddQuestion` and the question
collection is returned unchanged (nothing is stored, and the source persists only on
the success path). -/
theorem addQuestion_anonymous_gate (users : List User) (questions : List Question)
    (question : Question) (r : User)
    (hanon : question.is_anonymous = true)
    (hrec : GetUserByID users question.to_user_id = some r)
    (hallow : r.allow_anonymous_questions = false) :
    AddQuestion users questions question = (false, questions) := by
  unfold AddQuestion
  by_cases hdup : questions.any (fun q => q.id == question.id)
  · simp [hdup]
  · simp [hdup, hrec, hanon, hallow]

/-- Concrete instance of the anonymous gate. -/
theorem addQuestion_anonymous_gate_witness :
    AddQuestion [gateUser] [] gateQuestion = (false, []) :=
  addQuestion_anonymous_gate [gateUser] [] gateQuestion gateUser (by decide) (by decide)
    (by decide)

/-! ### Id allocation (C6) -/

/-- A left fold of `max` dominates its initial value. -/
lemma foldl_max_init_le (l : List Int) (a : Int) : a ≤ l.foldl max a := by
  induction l generalizing a with
  | nil => simp
  | cons x xs ih => exact le_trans (le_max_left a x) (ih (max a x))

/-- A left fold of `max` dominates every list element. -/
lemma foldl_max_mem_le (l : List Int) (a : Int) : ∀ x ∈ l, x ≤ l.foldl max a := by
  induction l generalizing a with
  | nil => simp
  | cons y ys ih =>
    intro x hx
    rcases List.mem_cons.mp hx with h | h
    · subst h; exact le_trans (le_max_right a x) (foldl_max_init_le ys (max a x))
    · exact ih (max a y) x h

/-- A left fold of `max` is the initial value or a list element. -/
lemma foldl_max_cases (l : List Int) (a : Int) :
    l.foldl max a = a ∨ l.foldl max a ∈ l := by
  induction l generalizing a with
  | nil => left; rfl
  | cons y ys ih =>
    rcases ih (max a y) with h | h
    · rcases max_cases a y with ⟨he, _⟩ | ⟨he, _⟩
      · left; rw [List.foldl_cons, h, he]
      · right; rw [List.foldl_cons, h, he]; exact List.mem_cons_self y ys
    · right; exact List.mem_cons_of_mem y h

/-- The element picked by the max_element fold is the start or a candidate. -/
lemma foldl_pick_mem (rest : List Question) (q : Question) :
    rest.foldl (fun m x => if m.id < x.id then x else m) q = q ∨
      rest.foldl (fun m x => if m.id < x.id then x else m) q ∈ rest := by
  induction rest generalizing q with
  | nil => left; rfl
  | cons y ys ih =>
    rw [List.foldl_cons]
    by_cases h : q.id < y.id
    · simp only [if_pos h]
      rcases ih y with h' | h'
      · right; rw [h']; exact List.mem_cons_self y ys
      · right; exact List.mem_cons_of_mem y h'
    · simp only [if_neg h]
      rcases ih q with h' | h'
      · left; exact h'
      · right; exact List.mem_cons_of_mem y h'

/-- The element picked by the max_element fold dominates the start and all candidates. -/
lemma foldl_pick_ge (rest : List Question) (q : Question) :
    q.id ≤ (rest.foldl (fun m x => if m.id < x.id then x else m) q).id ∧
      ∀ x ∈ rest, x.id ≤ (rest.foldl (fun m x => if m.id < x.id then x else m) q).id := by
  induction rest generalizing q with
  | nil => exact ⟨le_refl _, by simp⟩
  | cons y ys ih =>
    rw [List.foldl_cons]
    by_cases h : q.id < y.id
    · simp only [if_pos h]
      refine ⟨le_trans (le_of_lt h) (ih y).1, ?_⟩
      intro x hx
      rcases List.mem_cons.mp hx with hx | hx
      · rw [hx]; exact (ih y).1
      · exact (ih y).2 x hx
    · simp only [if_neg h]
      refine ⟨(ih q).1, ?_⟩
      intro x hx
      rcases List.mem_cons.mp hx with hx | hx
      · rw [hx]; exact le_trans (le_of_not_lt h) (ih q).1
      · exact (ih q).2 x hx

/-- Claim C6: on each repository independently, the id allocator returns 1 when the
collection is empty and max(existing ids) + 1 otherwise (the account allocator starts
its fold at 0, so account ids are assumed nonnegative, as the data model requires);
concretely, with ids {3, 7} it returns 8, and after removing 7 it returns 4. -/
theorem nextId_spec :
    (GetNextUserID [] = 1 ∧ GetNextQuestionID [] = 1) ∧
    (∀ us : List User, us ≠ [] → (∀ u ∈ us, 0 ≤ u.id) →
      ((∀ u ∈ us, u.id < GetNextUserID us) ∧ ∃ u ∈ us, GetNextUserID us = u.id + 1)) ∧
    (∀ qs : List Question, qs ≠ [] →
      ((∀ q ∈ qs, q.id < GetNextQuestionID qs) ∧
        ∃ q ∈ qs, GetNextQuestionID qs = q.id + 1)) ∧
    (GetNextQuestionID [sampleQuestion 3, sampleQuestion 7] = 8 ∧
     GetNextQuestionID [sampleQuestion 3] = 4 ∧
     GetNextUserID [sampleUser 3, sampleUser 7] = 8 ∧
     GetNextUserID [sampleUser 3] = 4) := by
  refine ⟨⟨rfl, rfl⟩, ?_, ?_, by decide⟩
  · intro us hne hpos
    have hfold : us.foldl (fun maxId u => max maxId u.id) 0 =
        (us.map (fun u => u.id)).foldl max 0 := by
      rw [List.foldl_map]
    constructor
    · intro u hu
      have h1 : u.id ≤ (us.map (fun u => u.id)).foldl max 0 :=
        foldl_max_mem_le _ 0 u.id (List.mem_map_of_mem _ hu)
      rw [GetNextUserID, if_neg hne, hfold]
      omega
    · rcases foldl_max_cases (us.map (fun u => u.id)) 0 with h | h
      · rcases List.exists_mem_of_ne_nil us hne with ⟨u0, hu0⟩
        have h1 : u0.id ≤ (us.map (fun u => u.id)).foldl max 0 :=
          foldl_max_mem_le _ 0 u0.id (List.mem_map_of_mem _ hu0)
        have h2 : 0 ≤ u0.id := hpos u0 hu0
        refine ⟨u0, hu0, ?_⟩
        rw [GetNextUserID, if_neg hne, hfold]
        omega
      · rcases List.mem_map.mp h with ⟨u0, hu0, hid⟩
        refine ⟨u0, hu0, ?_⟩
        rw [GetNextUserID, if_neg hne, hfold, hid]
  · intro qs hne
    match qs, hne with
    | q :: rest, _ =>
      constructor
      · intro x hx
        rcases List.mem_cons.mp hx with hx | hx
        · subst hx
          have := (foldl_pick_ge rest x).1
          simp only [GetNextQuestionID]
          omega
        · have := (foldl_pick_ge rest q).2 x hx
          simp only [GetNextQuestionID]
          omega
      · rcases foldl_pick_mem rest q with h | h
        · exact ⟨q, List.mem_cons_self q rest, by simp only [GetNextQuestionID, h]⟩
        · exact ⟨_, List.mem_cons_of_mem q h, by simp only [GetNextQuestionID]⟩

/-- Concrete instance of the allocator specification. -/
theorem nextId_spec_witness :
    (sampleUser 3).id < GetNextUserID [sampleUser 3, sampleUser 7] ∧
    GetNextQuestionID [sampleQuestion 3, sampleQuestion 7] = 8 :=
  ⟨(nextId_spec.2.1 [sampleUser 3, sampleUser 7] (by decide) (by decide)).1 (sampleUser 3)
      (by decide),
   nextId_spec.2.2.2.1⟩

/-! ### Arithmetic facts about the decimal codec -/

/-- Character properties every decimal digit produced by the renderer enjoys. -/
def goodDigit (c : Char) : Prop :=
  charIsDigit c = true ∧ isSpaceChar c = false ∧ c ≠ '-' ∧ c ≠ '+' ∧ c ≠ '"' ∧ c ≠ ','

lemma digitToChar_good (d : Nat) (h : d < 10) : goodDigit (digitToChar d) := by
  unfold goodDigit
  interval_cases d <;> exact (by decide)

lemma digitToChar_toNat (d : Nat) (h : d < 10) : (digitToChar d).toNat - 48 = d := by
  interval_cases d <;> decide

lemma natToCharsAux_acc (fuel : Nat) : ∀ n acc, n < fuel →
    natToCharsAux fuel n acc = natToCharsAux fuel n [] ++ acc := by
  induction fuel with
  | zero => intro n acc h; omega
  | succ fuel ih =>
    intro n acc h
    by_cases h10 : n < 10
    · simp [natToCharsAux, h10]
    · have hd : n / 10 < n := Nat.div_lt_self (by omega) (by omega)
      have hlt : n / 10 < fuel := by omega
      rw [natToCharsAux, natToCharsAux]
      simp only [if_neg h10]
      rw [ih (n / 10) (digitToChar (n % 10) :: acc) hlt,
        ih (n / 10) [digitToChar (n % 10)] hlt]
      simp

lemma natToCharsAux_fuel (f1 : Nat) : ∀ f2 n, n < f1 → n < f2 →
    natToCharsAux f1 n [] = natToCharsAux f2 n [] := by
  induction f1 with
  | zero => intro f2 n h; omega
  | succ f1 ih =>
    intro f2 n h1 h2
    match f2, h2 with
    | g + 1, h2 =>
      by_cases h10 : n < 10
      · simp [natToCharsAux, h10]
      · have hd : n / 10 < n := Nat.div_lt_self (by omega) (by omega)
        rw [natToCharsAux, natToCharsAux]
        simp only [if_neg h10]
        rw [natToCharsAux_acc f1 (n / 10) [digitToChar (n % 10)] (by omega),
          natToCharsAux_acc g (n / 10) [digitToChar (n % 10)] (by omega),
          ih g (n / 10) (by omega) (by omega)]

lemma natToChars_lt (n : Nat) (h : n < 10) : natToChars n = [digitToChar n] := by
  simp [natToChars, natToCharsAux, h]

lemma natToChars_ge (n : Nat) (h : 10 ≤ n) :
    natToChars n = natToChars (n / 10) ++ [digitToChar (n % 10)] := by
  have hd : n / 10 < n := Nat.div_lt_self (by omega) (by omega)
  rw [natToChars, natToCharsAux]
  simp only [if_neg (by omega : ¬ n < 10)]
  rw [natToCharsAux_acc n (n / 10) [digitToChar (n % 10)] (by omega),
    natToCharsAux_fuel n (n / 10 + 1) (n / 10) (by omega) (by omega)]
  rfl

lemma natToChars_ne_nil (n : Nat) : natToChars n ≠ [] := by
  by_cases h : n < 10
  · rw [natToChars_lt n h]; simp
  · rw [natToChars_ge n (by omega)]; simp

lemma natToChars_good (n : Nat) : ∀ c ∈ natToChars n, goodDigit c := by
  induction n using Nat.strong_induction_on with
  | _ n ih =>
    intro c hc
    by_cases h : n < 10
    · rw [natToChars_lt n h] at hc
      rcases List.mem_singleton.mp hc with rfl
      exact digitToChar_good n h
    · rw [natToChars_ge n (by omega)] at hc
      rcases List.mem_append.mp hc with hc | hc
      · exact ih (n / 10) (Nat.div_lt_self (by omega) (by omega)) c hc
      · rcases List.mem_singleton.mp hc with rfl
        exact digitToChar_good (n % 10) (Nat.mod_lt n (by omega))

lemma valOfDigits_append (l : List Char) (c : Char) : ∀ a,
    valOfDigits (l ++ [c]) a = (valOfDigits l a) * 10 + (c.toNat - 48) := by
  induction l with
  | nil => intro a; rfl
  | cons x xs ih => intro a; simp only [List.cons_append, valOfDigits]; exact ih _

lemma valOfDigits_natToChars (n : Nat) : ∀ a,
    valOfDigits (natToChars n) a = a * 10 ^ (natToChars n).length + n := by
  induction n using Nat.strong_induction_on with
  | _ n ih =>
    intro a
    by_cases h : n < 10
    · rw [natToChars_lt n h]
      simp only [valOfDigits, List.length_singleton, pow_one]
      rw [digitToChar_toNat n h]
    · have hd : n / 10 < n := Nat.div_lt_self (by omega) (by omega)
      rw [natToChars_ge n (by omega)]
      rw [valOfDigits_append (natToChars (n / 10)) (digitToChar (n % 10)) a]
      rw [ih (n / 10) hd a, digitToChar_toNat (n % 10) (Nat.mod_lt n (by omega))]
      rw [List.length_append, List.length_singleton, pow_succ]
      have h2 : n / 10 * 10 + n % 10 = n := by omega
      calc (a * 10 ^ (natToChars (n / 10)).length + n / 10) * 10 + n % 10
          = a * (10 ^ (natToChars (n / 10)).length * 10) + (n / 10 * 10 + n % 10) := by ring
        _ = a * (10 ^ (natToChars (n / 10)).length * 10) + n := by rw [h2]

lemma takeWhile_eq_self {p : Char → Bool} :
    ∀ l : List Char, (∀ c ∈ l, p c = true) → l.takeWhile p = l := by
  intro l hl
  induction l with
  | nil => rfl
  | cons x xs ih =>
    rw [List.takeWhile_cons, if_pos (hl x (List.mem_cons_self x xs))]
    rw [ih (fun c hc => hl c (List.mem_cons_of_mem x hc))]

lemma stoi_natToChars (n : Nat) : stoiChars (natToChars n) = some (n : Int) := by
  rcases h : natToChars n with _ | ⟨c, cs⟩
  · exact absurd h (natToChars_ne_nil n)
  · have hgood : goodDigit c := natToChars_good n c (by rw [h]; exact List.mem_cons_self c cs)
    obtain ⟨hdig, hsp, hminus, hplus, _, _⟩ := hgood
    have htake : (c :: cs).takeWhile charIsDigit = c :: cs :=
      takeWhile_eq_self _ (by rw [← h]; exact fun x hx => (natToChars_good n x hx).1)
    have hval : valOfDigits (c :: cs) 0 = n := by
      rw [← h, valOfDigits_natToChars n 0]; simp
    simp only [stoiChars, List.dropWhile_cons, hsp, if_neg, Bool.false_eq_true, if_false]
    rw [if_neg hminus, if_neg hplus, htake, if_neg (List.cons_ne_nil c cs), hval]

lemma stoi_intToChars (m : Int) : stoiChars (intToChars m) = some m := by
  by_cases hm : m < 0
  · rw [intToChars, if_pos hm]
    have halldig : ∀ x ∈ natToChars m.natAbs, charIsDigit x = true :=
      fun x hx => (natToChars_good m.natAbs x hx).1
    have htake : (natToChars m.natAbs).takeWhile charIsDigit = natToChars m.natAbs :=
      takeWhile_eq_self _ halldig
    have hval : valOfDigits (natToChars m.natAbs) 0 = m.natAbs := by
      rw [valOfDigits_natToChars m.natAbs 0]; simp
    have hdrop : ('-' :: natToChars m.natAbs).dropWhile isSpaceChar
        = '-' :: natToChars m.natAbs := by
      rw [List.dropWhile_cons, if_neg (by decide : ¬ isSpaceChar '-' = true)]
    simp only [stoiChars, hdrop]
    rw [if_pos trivial, htake, if_neg (natToChars_ne_nil m.natAbs), hval]
    congr 1
    omega
  · rw [intToChars, if_neg hm, stoi_natToChars]
    congr 1
    omega

/-! ### Tokenizer facts -/

/-- Characters that are neither the delimiter nor a quote pass through the tokenizer
unchanged, extending the current token. -/
lemma splitAux_bare (f : List Char) : ∀ (rest cur : List Char),
    (∀ c ∈ f, c ≠ '"' ∧ c ≠ ',') →
    splitAux ',' (f ++ rest) cur false = splitAux ',' rest (cur ++ f) false := by
  induction f with
  | nil => intro rest cur hf; simp
  | cons c f ih =>
    intro rest cur hf
    have hc := hf c (List.mem_cons_self c f)
    rw [List.cons_append, splitAux, if_neg hc.1, if_neg (by simp [hc.2])]
    rw [ih rest (cur ++ [c]) (fun x hx => hf x (List.mem_cons_of_mem c hx))]
    simp

/-- With the inQuotes flag on, every quote-free character is appended, commas included. -/
lemma splitAux_quoted (f : List Char) : ∀ (rest cur : List Char),
    (∀ c ∈ f, c ≠ '"') →
    splitAux ',' (f ++ rest) cur true = splitAux ',' rest (cur ++ f) true := by
  induction f with
  | nil => intro rest cur hf; simp
  | cons c f ih =>
    intro rest cur hf
    have hc := hf c (List.mem_cons_self c f)
    rw [List.cons_append, splitAux, if_neg hc, if_neg (by simp)]
    rw [ih rest (cur ++ [c]) (fun x hx => hf x (List.mem_cons_of_mem c hx))]
    simp

/-- Quote doubling is the identity on quote-free fields. -/
lemma doubleQuotes_eq_self : ∀ f : List Char, (∀ c ∈ f, c ≠ '"') → doubleQuotes f = f := by
  intro f
  induction f with
  | nil => intro _; rfl
  | cons c f ih =>
    intro hf
    rw [doubleQuotes, if_neg (hf c (List.mem_cons_self c f)),
      ih (fun x hx => hf x (List.mem_cons_of_mem c hx))]

/-- A field encoded by escapeCommas is recovered exactly by the tokenizer, provided the
field contains no literal quote character. -/
lemma splitAux_encoded (f rest cur : List Char) (hf : ∀ c ∈ f, c ≠ '"') :
    splitAux ',' (escapeCommas f ++ rest) cur false = splitAux ',' rest (cur ++ f) false := by
  by_cases hcomma : f.contains ','
  · rw [escapeCommas, if_pos hcomma, doubleQuotes_eq_self f hf]
    rw [List.cons_append, splitAux, if_pos rfl]
    simp only [Bool.not_false]
    rw [List.append_assoc, splitAux_quoted f (['"'] ++ rest) cur hf]
    rw [List.singleton_append, splitAux, if_pos rfl]
    simp only [Bool.not_true]
  · rw [escapeCommas, if_neg hcomma]
    refine splitAux_bare f rest cur (fun c hc => ⟨hf c hc, fun he => ?_⟩)
    exact hcomma (List.elem_eq_true_of_mem (show (',' : Char) ∈ f from he ▸ hc))

/-- The delimiter outside quotes closes the current token. -/
lemma splitAux_delim (rest cur : List Char) :
    splitAux ',' (',' :: rest) cur false = cur :: splitAux ',' rest [] false := by
  rw [splitAux, if_neg (by decide : ¬(',' : Char) = '"'), if_pos ⟨rfl, rfl⟩]

/-- A trailing bare field closes the line with the accumulated token. -/
lemma splitAux_bare_last (f cur : List Char) (hf : ∀ c ∈ f, c ≠ '"' ∧ c ≠ ',') :
    splitAux ',' f cur false = [cur ++ f] := by
  have h := splitAux_bare f [] cur hf
  rw [List.append_nil] at h
  exact h.trans rfl

/-- A trailing escaped field closes the line with the accumulated token. -/
lemma splitAux_encoded_last (f cur : List Char) (hf : ∀ c ∈ f, c ≠ '"') :
    splitAux ',' (escapeCommas f) cur false = [cur ++ f] := by
  have h := splitAux_encoded f [] cur hf
  rw [List.append_nil] at h
  exact h.trans rfl

/-- Rendered integers consist of quote-free, comma-free characters. -/
lemma intToChars_safe (m : Int) : ∀ c ∈ intToChars m, c ≠ '"' ∧ c ≠ ',' := by
  intro c hc
  rw [intToChars] at hc
  by_cases hm : m < 0
  · rw [if_pos hm] at hc
    rcases List.mem_cons.mp hc with rfl | hc
    · exact ⟨by decide, by decide⟩
    · have hg := natToChars_good m.natAbs c hc
      exact ⟨hg.2.2.2.2.1, hg.2.2.2.2.2⟩
  · rw [if_neg hm] at hc
    have hg := natToChars_good m.toNat c hc
    exact ⟨hg.2.2.2.2.1, hg.2.2.2.2.2⟩

/-- Rendered bool flags consist of quote-free, comma-free characters. -/
lemma boolToChars_safe (b : Bool) : ∀ c ∈ boolToChars b, c ≠ '"' ∧ c ≠ ',' := by
  cases b <;> intro c hc <;> simp [boolToChars] at hc <;> subst hc <;>
    exact ⟨by decide, by decide⟩

/-- Rendered roles consist of quote-free, comma-free characters. -/
lemma roleToChars_safe (r : Role) : ∀ c ∈ roleToChars r, c ≠ '"' ∧ c ≠ ',' := by
  cases r <;> intro c hc <;> simp [roleToChars] at hc <;> subst hc <;>
    exact ⟨by decide, by decide⟩

/-- Tokenizing an encoded question line yields the seven raw fields, provided the two
escaped text fields are quote-free. -/
lemma split_questionToString (q : Question)
    (ht : ∀ c ∈ q.text, c ≠ '"') (ha : ∀ c ∈ q.answer, c ≠ '"') :
    split (questionToString q) ',' =
      [intToChars q.id, intToChars q.parent_id, intToChars q.from_user_id,
       intToChars q.to_user_id, boolToChars q.is_anonymous, q.text, q.answer] := by
  rw [split, questionToString]
  simp only [List.append_assoc, List.cons_append, List.singleton_append, List.nil_append]
  rw [splitAux_bare (intToChars q.id) _ _ (intToChars_safe q.id),
    splitAux_delim,
    splitAux_bare (intToChars q.parent_id) _ _ (intToChars_safe q.parent_id),
    splitAux_delim,
    splitAux_bare (intToChars q.from_user_id) _ _ (intToChars_safe q.from_user_id),
    splitAux_delim,
    splitAux_bare (intToChars q.to_user_id) _ _ (intToChars_safe q.to_user_id),
    splitAux_delim,
    splitAux_bare (boolToChars q.is_anonymous) _ _ (boolToChars_safe q.is_anonymous),
    splitAux_delim,
    splitAux_encoded q.text _ _ ht,
    splitAux_delim,
    splitAux_encoded_last q.answer _ ha]
  simp

/-- Tokenizing an encoded account line yields the seven raw fields, provided the four
string fields are comma-free and quote-free. -/
lemma split_userToString (u : User)
    (hn : ∀ c ∈ u.name, c ≠ '"' ∧ c ≠ ',') (hp : ∀ c ∈ u.password, c ≠ '"' ∧ c ≠ ',')
    (hu : ∀ c ∈ u.username, c ≠ '"' ∧ c ≠ ',') (he : ∀ c ∈ u.email, c ≠ '"' ∧ c ≠ ',') :
    split (userToString u) ',' =
      [intToChars u.id, u.name, u.password, u.username, u.email,
       boolToChars u.allow_anonymous_questions, roleToChars u.role] := by
  rw [split, userToString]
  simp only [List.append_assoc, List.cons_append, List.singleton_append, List.nil_append]
  rw [splitAux_bare (intToChars u.id) _ _ (intToChars_safe u.id),
    splitAux_delim,
    splitAux_bare u.name _ _ hn,
    splitAux_delim,
    splitAux_bare u.password _ _ hp,
    splitAux_delim,
    splitAux_bare u.username _ _ hu,
    splitAux_delim,
    splitAux_bare u.email _ _ he,
    splitAux_delim,
    splitAux_bare (boolToChars u.allow_anonymous_questions) _ _
      (boolToChars_safe u.allow_anonymous_questions),
    splitAux_delim,
    splitAux_bare_last (roleToChars u.role) _ (roleToChars_safe u.role)]
  simp

/-- Decoding of rendered bool flags recovers the flag. -/
lemma parse_boolToChars (b : Bool) :
    (boolToChars b == ['1'] || boolToChars b == ['t', 'r', 'u', 'e']) = b := by
  cases b <;> decide

/-- Decoding of rendered roles recovers the role. -/
lemma parse_roleToChars (r : Role) :
    (if roleToChars r == ['0'] then Role.ADMIN else Role.REGULAR_USER) = r := by
  cases r <;> decide

/-! ### Round trip of the codec (C1) and the quoting rule (C5) -/

/-- Pointwise form of a non-membership hypothesis. -/
lemma forall_ne_of_not_mem {a : Char} {l : List Char} (h : a ∉ l) : ∀ c ∈ l, c ≠ a :=
  fun c hc he => h (he ▸ hc)

/-- Decoding inverts encoding for a question whose text and answer are quote-free. -/
lemma parse_questionToString (q : Question)
    (ht : '"' ∉ q.text) (ha : '"' ∉ q.answer) :
    parseQuestionLine (questionToString q) = some q := by
  obtain ⟨i, pid, fu, tu, an, tx, ans⟩ := q
  have hs := split_questionToString ⟨i, pid, fu, tu, an, tx, ans⟩
    (forall_ne_of_not_mem ht) (forall_ne_of_not_mem ha)
  rw [parseQuestionLine, hs]
  simp only [stoi_intToChars, parse_boolToChars]

/-- Decoding inverts encoding for an account whose string fields are comma-free and
quote-free. -/
lemma parse_userToString (u : User)
    (hn : ',' ∉ u.name) (hn2 : '"' ∉ u.name)
    (hp : ',' ∉ u.password) (hp2 : '"' ∉ u.password)
    (hu : ',' ∉ u.username) (hu2 : '"' ∉ u.username)
    (he : ',' ∉ u.email) (he2 : '"' ∉ u.email) :
    parseUserLine (userToString u) = some u := by
  obtain ⟨i, nm, pw, un, em, al, rl⟩ := u
  have hs := split_userToString ⟨i, nm, pw, un, em, al, rl⟩
    (fun c hc => ⟨forall_ne_of_not_mem hn2 c hc, forall_ne_of_not_mem hn c hc⟩)
    (fun c hc => ⟨forall_ne_of_not_mem hp2 c hc, forall_ne_of_not_mem hp c hc⟩)
    (fun c hc => ⟨forall_ne_of_not_mem hu2 c hc, forall_ne_of_not_mem hu c hc⟩)
    (fun c hc => ⟨forall_ne_of_not_mem he2 c hc, forall_ne_of_not_mem he c hc⟩)
  rw [parseUserLine, hs]
  simp only [stoi_intToChars, parse_boolToChars, parse_roleToChars]

/-- Claim C1 (amended): decoding inverts encoding for thread entries whose text and
answer contain no literal quote character (fields containing the delimiter are fine,
the quoting handles them), and for accounts none of whose string fields contain the
delimiter or a quote; a field holding a literal quote — or a comma in an account
field, which the account encoder never quotes — does not survive the round trip. -/
theorem roundtrip_quote_free :
    (∀ q : Question, '"' ∉ q.text → '"' ∉ q.answer →
      parseQuestionLine (questionToString q) = some q) ∧
    (∀ u : User,
      ',' ∉ u.name → '"' ∉ u.name → ',' ∉ u.password → '"' ∉ u.password →
      ',' ∉ u.username → '"' ∉ u.username → ',' ∉ u.email → '"' ∉ u.email →
      parseUserLine (userToString u) = some u) :=
  ⟨parse_questionToString, parse_userToString⟩

/-- Question used in the round-trip instance: its text contains the delimiter. -/
def wRound : Question :=
  { id := 12, parent_id := -1, from_user_id := 3, to_user_id := 4,
    is_anonymous := true, text := ['x', ',', 'y'], answer := ['o', 'k'] }

/-- Concrete round-trip instance with a comma inside the text field. -/
theorem roundtrip_quote_free_witness :
    parseQuestionLine (questionToString wRound) = some wRound :=
  roundtrip_quote_free.1 wRound (by decide) (by decide)

/-- Question whose text holds a literal quote character. -/
def cQuote : Question :=
  { id := 1, parent_id := -1, from_user_id := 2, to_user_id := 3,
    is_anonymous := false, text := ['a', '"', 'b'], answer := [] }

/-- Claim C1 (counterexample): a text field holding a literal quote does not
round-trip: the encoder leaves the comma-free field bare, the tokenizer's quote
toggle then swallows the quote together with the following separator, and the
decoded entry differs from the original. -/
theorem roundtrip_counterexample :
    parseQuestionLine (questionToString cQuote) =
      some { cQuote with text := ['a', 'b', ','] } ∧
    parseQuestionLine (questionToString cQuote) ≠ some cQuote := by decide

/-- Account whose display name contains the delimiter. -/
def qUser : User :=
  { id := 1, name := ['a', ',', 'b'], password := ['p'], username := ['u'],
    email := ['e'], allow_anonymous_questions := false, role := Role.REGULAR_USER }

/-- Claim C5 (counterexample): the account encoder applies no quoting at all — the
line written for an account whose name contains the delimiter holds no quote
character anywhere, though the claim requires that field to be wrapped in quotes. -/
theorem userToString_no_quoting_counterexample :
    qUser.name.contains ',' = true ∧ (userToString qUser).contains '"' = false := by
  decide

/-- Claim C5 (amended): the quote-iff-comma rule holds for the thread-entry field
encoder escapeCommas (fields containing a comma are wrapped with embedded quotes
doubled, fields without one are written bare); account lines are always written
bare — userToString introduces no quote character when the account's fields hold
none. -/
theorem quoting_rule :
    (∀ s : List Char, s.contains ',' = true →
      escapeCommas s = '"' :: (doubleQuotes s ++ ['"'])) ∧
    (∀ s : List Char, s.contains ',' = false → escapeCommas s = s) ∧
    (∀ u : User, '"' ∉ u.name → '"' ∉ u.password → '"' ∉ u.username → '"' ∉ u.email →
      '"' ∉ userToString u) := by
  refine ⟨fun s hs => by rw [escapeCommas, if_pos hs],
    fun s hs => by rw [escapeCommas, if_neg (by rw [hs]; exact Bool.false_ne_true)], ?_⟩
  intro u h1 h2 h3 h4
  have hA : '"' ∉ intToChars u.id := fun hc => (intToChars_safe u.id '"' hc).1 rfl
  have hB : '"' ∉ boolToChars u.allow_anonymous_questions :=
    fun hc => (boolToChars_safe _ '"' hc).1 rfl
  have hC : '"' ∉ roleToChars u.role := fun hc => (roleToChars_safe _ '"' hc).1 rfl
  have hD : '"' ∉ [','] := by decide
  simp [userToString, List.mem_append, hA, hB, hC, hD, h1, h2, h3, h4]

/-- Concrete instances of the quoting rule. -/
theorem quoting_rule_witness :
    escapeCommas ['a', ',', 'b'] = '"' :: (doubleQuotes ['a', ',', 'b'] ++ ['"']) ∧
    escapeCommas ['a', 'b'] = ['a', 'b'] :=
  ⟨quoting_rule.1 ['a', ',', 'b'] (by decide), quoting_rule.2.1 ['a', 'b'] (by decide)⟩

/-! ### Loader facts (C7, C10) -/

/-- Loader fold with an explicit starting collection, for reasoning by induction. -/
def loadUsersFrom (acc : List User) (lines : List (List Char)) : List User :=
  lines.foldl (fun acc line =>
    match parseUserLine line with
    | none => acc
    | some u => emplaceUser acc u) acc

/-- Loader fold with an explicit starting collection, for reasoning by induction. -/
def loadQuestionsFrom (acc : List Question) (lines : List (List Char)) : List Question :=
  lines.foldl (fun acc line =>
    match parseQuestionLine line with
    | none => acc
    | some q => emplaceQuestion acc q) acc

lemma LoadUsers_eq (lines : List (List Char)) : LoadUsers lines = loadUsersFrom [] lines := rfl

lemma LoadQuestions_eq (lines : List (List Char)) :
    LoadQuestions lines = loadQuestionsFrom [] lines := rfl

lemma loadUsersFrom_cons (acc : List User) (line : List Char) (rest : List (List Char)) :
    loadUsersFrom acc (line :: rest) =
      loadUsersFrom (match parseUserLine line with
        | none => acc
        | some u => emplaceUser acc u) rest := rfl

lemma loadQuestionsFrom_cons (acc : List Question) (line : List Char)
    (rest : List (List Char)) :
    loadQuestionsFrom acc (line :: rest) =
      loadQuestionsFrom (match parseQuestionLine line with
        | none => acc
        | some q => emplaceQuestion acc q) rest := rfl

lemma loadUsersFrom_append (acc : List User) (l1 l2 : List (List Char)) :
    loadUsersFrom acc (l1 ++ l2) = loadUsersFrom (loadUsersFrom acc l1) l2 :=
  List.foldl_append _ _ _ _

lemma loadQuestionsFrom_append (acc : List Question) (l1 l2 : List (List Char)) :
    loadQuestionsFrom acc (l1 ++ l2) = loadQuestionsFrom (loadQuestionsFrom acc l1) l2 :=
  List.foldl_append _ _ _ _

/-- Emplacing preserves distinctness of the stored ids. -/
lemma emplaceUser_nodup (acc : List User) (u : User)
    (h : (acc.map (fun v => v.id)).Nodup) :
    ((emplaceUser acc u).map (fun v => v.id)).Nodup := by
  rw [emplaceUser]
  by_cases hc : acc.any (fun v => v.id == u.id)
  · rw [if_pos hc]; exact h
  · rw [if_neg hc, List.map_append]
    have hnot : u.id ∉ acc.map (fun v => v.id) := by
      intro hm
      rcases List.mem_map.mp hm with ⟨v, hv, hid⟩
      exact hc (List.any_eq_true.mpr ⟨v, hv, beq_iff_eq.mpr hid⟩)
    simp [List.nodup_append, h, hnot]

/-- Emplacing preserves distinctness of the stored ids. -/
lemma emplaceQuestion_nodup (acc : List Question) (q : Question)
    (h : (acc.map (fun v => v.id)).Nodup) :
    ((emplaceQuestion acc q).map (fun v => v.id)).Nodup := by
  rw [emplaceQuestion]
  by_cases hc : acc.any (fun v => v.id == q.id)
  · rw [if_pos hc]; exact h
  · rw [if_neg hc, List.map_append]
    have hnot : q.id ∉ acc.map (fun v => v.id) := by
      intro hm
      rcases List.mem_map.mp hm with ⟨v, hv, hid⟩
      exact hc (List.any_eq_true.mpr ⟨v, hv, beq_iff_eq.mpr hid⟩)
    simp [List.nodup_append, h, hnot]

/-- The loader preserves distinctness of the stored ids. -/
lemma loadUsersFrom_nodup : ∀ (lines : List (List Char)) (acc : List User),
    (acc.map (fun v => v.id)).Nodup →
    ((loadUsersFrom acc lines).map (fun v => v.id)).Nodup := by
  intro lines
  induction lines with
  | nil => exact fun acc h => h
  | cons line rest ih =>
    intro acc h
    rw [loadUsersFrom_cons]
    cases hp : parseUserLine line with
    | none => simp only [hp]; exact ih acc h
    | some u => simp only [hp]; exact ih _ (emplaceUser_nodup acc u h)

/-- The loader preserves distinctness of the stored ids. -/
lemma loadQuestionsFrom_nodup : ∀ (lines : List (List Char)) (acc : List Question),
    (acc.map (fun v => v.id)).Nodup →
    ((loadQuestionsFrom acc lines).map (fun v => v.id)).Nodup := by
  intro lines
  induction lines with
  | nil => exact fun acc h => h
  | cons line rest ih =>
    intro acc h
    rw [loadQuestionsFrom_cons]
    cases hp : parseQuestionLine line with
    | none => simp only [hp]; exact ih acc h
    | some q => simp only [hp]; exact ih _ (emplaceQuestion_nodup acc q h)

/-- With pairwise distinct parsed ids the loader keeps every well-formed record. -/
lemma loadUsersFrom_filterMap : ∀ (lines : List (List Char)) (acc : List User),
    ((acc ++ lines.filterMap parseUserLine).map (fun v => v.id)).Nodup →
    loadUsersFrom acc lines = acc ++ lines.filterMap parseUserLine := by
  intro lines
  induction lines with
  | nil => intro acc h; simp [loadUsersFrom]
  | cons line rest ih =>
    intro acc h
    rw [loadUsersFrom_cons]
    cases hp : parseUserLine line with
    | none =>
      simp only [hp]
      simp only [List.filterMap_cons, hp] at h ⊢
      exact ih acc h
    | some u =>
      simp only [hp]
      simp only [List.filterMap_cons, hp] at h ⊢
      have h' := h
      rw [List.map_append] at h'
      have hd := (List.nodup_append.mp h').2.2
      have hnot : u.id ∉ acc.map (fun v => v.id) := fun hm =>
        hd hm (by simp)
      have hany : ¬ acc.any (fun v => v.id == u.id) := by
        intro hany
        rcases List.any_eq_true.mp hany with ⟨v, hv, hbeq⟩
        exact hnot (List.mem_map.mpr ⟨v, hv, beq_iff_eq.mp hbeq⟩)
      rw [emplaceUser, if_neg hany]
      rw [ih (acc ++ [u]) (by simpa using h)]
      simp

/-- With pairwise distinct parsed ids the loader keeps every well-formed record. -/
lemma loadQuestionsFrom_filterMap : ∀ (lines : List (List Char)) (acc : List Question),
    ((acc ++ lines.filterMap parseQuestionLine).map (fun v => v.id)).Nodup →
    loadQuestionsFrom acc lines = acc ++ lines.filterMap parseQuestionLine := by
  intro lines
  induction lines with
  | nil => intro acc h; simp [loadQuestionsFrom]
  | cons line rest ih =>
    intro acc h
    rw [loadQuestionsFrom_cons]
    cases hp : parseQuestionLine line with
    | none =>
      simp only [hp]
      simp only [List.filterMap_cons, hp] at h ⊢
      exact ih acc h
    | some q =>
      simp only [hp]
      simp only [List.filterMap_cons, hp] at h ⊢
      have h' := h
      rw [List.map_append] at h'
      have hd := (List.nodup_append.mp h').2.2
      have hnot : q.id ∉ acc.map (fun v => v.id) := fun hm =>
        hd hm (by simp)
      have hany : ¬ acc.any (fun v => v.id == q.id) := by
        intro hany
        rcases List.any_eq_true.mp hany with ⟨v, hv, hbeq⟩
        exact hnot (List.mem_map.mpr ⟨v, hv, beq_iff_eq.mp hbeq⟩)
      rw [emplaceQuestion, if_neg hany]
      rw [ih (acc ++ [q]) (by simpa using h)]
      simp

/-- Length of a filterMap as a count of the successful elements. -/
lemma length_filterMap_eq_countP {α β : Type} (f : α → Option β) :
    ∀ l : List α, (l.filterMap f).length = l.countP (fun a => (f a).isSome) := by
  intro l
  induction l with
  | nil => rfl
  | cons a l ih =>
    cases hf : f a with
    | none => simp [List.filterMap_cons, hf, List.countP_cons, ih]
    | some b => simp [List.filterMap_cons, hf, List.countP_cons, ih]

/-- A user line with fewer than seven fields is rejected. -/
lemma parseUserLine_short (line : List Char) (h : (split line ',').length < 7) :
    parseUserLine line = none := by
  rw [parseUserLine]
  rcases hs : split line ',' with _ | ⟨a, _ | ⟨b, _ | ⟨c, _ | ⟨d, _ | ⟨e, _ | ⟨f, _ | g⟩⟩⟩⟩⟩⟩ <;>
    first
      | rfl
      | (rw [hs] at h; simp only [List.length_cons] at h; omega)

/-- A question line with fewer than six fields is rejected. -/
lemma parseQuestionLine_short (line : List Char) (h : (split line ',').length < 6) :
    parseQuestionLine line = none := by
  rw [parseQuestionLine]
  rcases hs : split line ',' with _ | ⟨a, _ | ⟨b, _ | ⟨c, _ | ⟨d, _ | ⟨e, _ | g⟩⟩⟩⟩⟩ <;>
    first
      | rfl
      | (rw [hs] at h; simp only [List.length_cons] at h; omega)

/-- Claim C7 (amended): a line with too few fields (or, by definition of the line
parsers, an unparsable numeric field) is skipped and loading continues with the
remaining lines; provided the well-formed lines carry pairwise distinct ids, the
loaded collection consists of exactly the records of the well-formed lines, one
each, so the loaded count equals the number of well-formed lines. -/
theorem load_skips_malformed (lines : List (List Char)) :
    (∀ line : List Char, (split line ',').length < 7 → parseUserLine line = none) ∧
    (∀ line : List Char, (split line ',').length < 6 → parseQuestionLine line = none) ∧
    (((lines.filterMap parseUserLine).map (fun u => u.id)).Nodup →
      LoadUsers lines = lines.filterMap parseUserLine ∧
      (LoadUsers lines).length = lines.countP (fun l => (parseUserLine l).isSome)) ∧
    (((lines.filterMap parseQuestionLine).map (fun q => q.id)).Nodup →
      LoadQuestions lines = lines.filterMap parseQuestionLine ∧
      (LoadQuestions lines).length = lines.countP (fun l => (parseQuestionLine l).isSome)) := by
  refine ⟨parseUserLine_short, parseQuestionLine_short, fun h => ?_, fun h => ?_⟩
  · have he : LoadUsers lines = lines.filterMap parseUserLine := by
      rw [LoadUsers_eq, loadUsersFrom_filterMap lines [] (by simpa using h)]
      simp
    exact ⟨he, by rw [he, length_filterMap_eq_countP]⟩
  · have he : LoadQuestions lines = lines.filterMap parseQuestionLine := by
      rw [LoadQuestions_eq, loadQuestionsFrom_filterMap lines [] (by simpa using h)]
      simp
    exact ⟨he, by rw [he, length_filterMap_eq_countP]⟩

/-- Claim C10: loading keeps the first record per id and silently ignores later
well-formed lines with the same id: a freshly loaded repository has pairwise
distinct ids; appending a well-formed line whose id is already loaded changes
nothing, while appending one with a fresh id appends exactly its record. -/
theorem load_first_wins (lines : List (List Char)) :
    ((LoadUsers lines).map (fun u => u.id)).Nodup ∧
    ((LoadQuestions lines).map (fun q => q.id)).Nodup ∧
    (∀ line u, parseUserLine line = some u →
      ((∃ v ∈ LoadUsers lines, v.id = u.id) →
        LoadUsers (lines ++ [line]) = LoadUsers lines) ∧
      ((∀ v ∈ LoadUsers lines, v.id ≠ u.id) →
        LoadUsers (lines ++ [line]) = LoadUsers lines ++ [u])) ∧
    (∀ line q, parseQuestionLine line = some q →
      ((∃ v ∈ LoadQuestions lines, v.id = q.id) →
        LoadQuestions (lines ++ [line]) = LoadQuestions lines) ∧
      ((∀ v ∈ LoadQuestions lines, v.id ≠ q.id) →
        LoadQuestions (lines ++ [line]) = LoadQuestions lines ++ [q])) := by
  refine ⟨loadUsersFrom_nodup lines [] (by simp),
    loadQuestionsFrom_nodup lines [] (by simp), ?_, ?_⟩
  · intro line u hp
    have hstep : LoadUsers (lines ++ [line]) = emplaceUser (LoadUsers lines) u := by
      rw [LoadUsers_eq, loadUsersFrom_append, loadUsersFrom_cons]
      simp only [hp]
      rfl
    constructor
    · rintro ⟨v, hv, hid⟩
      have hany : ((LoadUsers lines).any fun w => w.id == u.id) = true :=
        List.any_eq_true.mpr ⟨v, hv, beq_iff_eq.mpr hid⟩
      rw [hstep, emplaceUser, if_pos hany]
    · intro hall
      rw [hstep, emplaceUser, if_neg ?_]
      intro hany
      rcases List.any_eq_true.mp hany with ⟨v, hv, hbeq⟩
      exact hall v hv (beq_iff_eq.mp hbeq)
  · intro line q hp
    have hstep : LoadQuestions (lines ++ [line]) = emplaceQuestion (LoadQuestions lines) q := by
      rw [LoadQuestions_eq, loadQuestionsFrom_append, loadQuestionsFrom_cons]
      simp only [hp]
      rfl
    constructor
    · rintro ⟨v, hv, hid⟩
      have hany : ((LoadQuestions lines).any fun w => w.id == q.id) = true :=
        List.any_eq_true.mpr ⟨v, hv, beq_iff_eq.mpr hid⟩
      rw [hstep, emplaceQuestion, if_pos hany]
    · intro hall
      rw [hstep, emplaceQuestion, if_neg ?_]
      intro hany
      rcases List.any_eq_true.mp hany with ⟨v, hv, hbeq⟩
      exact hall v hv (beq_iff_eq.mp hbeq)

/-- Well-formed account line with id 1. -/
def lineDupA : List Char := "1,alice,pw,al,a@x,1,1".toList

/-- A second well-formed account line carrying the same id 1. -/
def lineDupB : List Char := "1,bob,pw,bo,b@x,1,1".toList

/-- Malformed account line with only five fields. -/
def lineShort : List Char := "2,carl,pw,ca,1".toList

/-- Record decoded from `lineDupB`. -/
def dupUserB : User :=
  { id := 1, name := ['b', 'o', 'b'], password := ['p', 'w'], username := ['b', 'o'],
    email := ['b', '@', 'x'], allow_anonymous_questions := true,
    role := Role.REGULAR_USER }

/-- Claim C7 (counterexample): two well-formed lines carrying the same id load as a
single record, so the loaded count falls short of the number of well-formed lines. -/
theorem load_count_counterexample :
    [lineDupA, lineDupB].countP (fun l => (parseUserLine l).isSome) = 2 ∧
    (LoadUsers [lineDupA, lineDupB]).length = 1 := by decide

/-- Concrete loading instance: the short line is skipped, the well-formed one loads. -/
theorem load_skips_malformed_witness :
    LoadUsers [lineDupA, lineShort] = [lineDupA, lineShort].filterMap parseUserLine ∧
    (LoadUsers [lineDupA, lineShort]).length =
      [lineDupA, lineShort].countP (fun l => (parseUserLine l).isSome) :=
  (load_skips_malformed [lineDupA, lineShort]).2.2.1 (by decide)

/-- Concrete first-wins instance: a duplicate-id line loads nothing. -/
theorem load_first_wins_witness :
    LoadUsers ([lineDupA] ++ [lineDupB]) = LoadUsers [lineDupA] :=
  ((load_first_wins [lineDupA]).2.2.1 lineDupB dupUserB (by decide)).1 (by decide)

/-! ### Reply listing (C8) -/

/-- Reply whose parent entry is absent from the repository. -/
def rDangling : Question :=
  { id := 7, parent_id := 5, from_user_id := 1, to_user_id := 2,
    is_anonymous := false, text := [], answer := [] }

/-- Top-level entry with id 5. -/
def rParent : Question :=
  { id := 5, parent_id := -1, from_user_id := 1, to_user_id := 2,
    is_anonymous := false, text := [], answer := [] }

/-- Claim C8 (counterexample): GetThreadQuestions does validate that the parent
exists: with a single reply whose parent id 5 matches no stored entry, the listing
reports an error (none) instead of returning that reply. -/
theorem getThreadQuestions_counterexample :
    rDangling.parent_id = 5 ∧ GetThreadQuestions [rDangling] 5 = none := by decide

/-- Claim C8 (amended): when an entry with the requested (non-sentinel) id exists,
the listing returns exactly the entries whose parent id equals it; when no such
entry exists, the listing is refused with an error instead of returning the
matching replies. -/
theorem getThreadQuestions_spec (questions : List Question) (parent_id : Int)
    (hpid : parent_id ≠ -1) :
    ((∃ q ∈ questions, q.id = parent_id) →
      GetThreadQuestions questions parent_id =
        some (questions.filter (fun q => q.parent_id == parent_id))) ∧
    ((∀ q ∈ questions, q.id ≠ parent_id) →
      GetThreadQuestions questions parent_id = none) := by
  constructor
  · rintro ⟨q, hq, hid⟩
    have hany : (questions.any fun w => w.id == parent_id) = true :=
      List.any_eq_true.mpr ⟨q, hq, beq_iff_eq.mpr hid⟩
    rw [GetThreadQuestions, if_neg hpid, if_neg (by rw [hany]; decide)]
  · intro hall
    have hany : (questions.any fun w => w.id == parent_id) = false := by
      cases h : questions.any fun w => w.id == parent_id with
      | false => rfl
      | true =>
        rcases List.any_eq_true.mp h with ⟨v, hv, hbeq⟩
        exact absurd (beq_iff_eq.mp hbeq) (hall v hv)
    rw [GetThreadQuestions, if_neg hpid, if_pos (by rw [hany]; rfl)]

/-- Concrete listing instance with an existing parent. -/
theorem getThreadQuestions_spec_witness :
    GetThreadQuestions [rParent, rDangling] 5 =
      some (([rParent, rDangling]).filter (fun q => q.parent_id == 5)) :=
  (getThreadQuestions_spec [rParent, rDangling] 5 (by decide)).1 (by decide)

/-! ### Parent validation at creation (C3) -/

/-- Recipient account accepting anonymous questions. -/
def dRecipient : User :=
  { id := 1, name := [], password := [], username := [], email := [],
    allow_anonymous_questions := true, role := Role.REGULAR_USER }

/-- Existing top-level entry with id 3. -/
def dExisting : Question :=
  { id := 3, parent_id := -1, from_user_id := 1, to_user_id := 1,
    is_anonymous := false, text := [], answer := [] }

/-- Entry whose parent id 5 references no stored entry. -/
def dDangling : Question :=
  { id := 10, parent_id := 5, from_user_id := 2, to_user_id := 1,
    is_anonymous := false, text := ['x'], answer := [] }

/-- Asking account used in the concrete ask-flow instance. -/
def dAsker : User :=
  { id := 2, name := [], password := [], username := [], email := [],
    allow_anonymous_questions := false, role := Role.REGULAR_USER }

/-- Claim C3 (counterexample): AddQuestion itself performs no parent check: adding an
entry whose non-sentinel parent id 5 matches no stored entry succeeds and stores the
entry, although the only existing entry has id 3. -/
theorem addQuestion_dangling_parent_counterexample :
    dDangling.parent_id = 5 ∧ dExisting.id = 3 ∧
    AddQuestion [dRecipient] [dExisting] dDangling = (true, [dExisting, dDangling]) := by
  decide

/-- Everything in an AddQuestion result was already stored or is the new entry. -/
lemma addQuestion_mem (users : List User) (questions : List Question)
    (question q : Question)
    (hq : q ∈ (AddQuestion users questions question).2) : q ∈ questions ∨ q = question := by
  rw [AddQuestion] at hq
  by_cases hdup : (questions.any fun w => w.id == question.id) = true
  · rw [if_pos hdup] at hq; exact Or.inl hq
  · rw [if_neg hdup] at hq
    cases hr : GetUserByID users question.to_user_id with
    | none => simp only [hr] at hq; exact Or.inl hq
    | some recipient =>
      simp only [hr] at hq
      by_cases hgate : (question.is_anonymous && !recipient.allow_anonymous_questions) = true
      · rw [if_pos hgate] at hq; exact Or.inl hq
      · rw [if_neg hgate] at hq
        rcases List.mem_append.mp hq with h | h
        · exact Or.inl h
        · exact Or.inr (List.mem_singleton.mp h)

/-- The resolved parent id is the sentinel or the id of a stored entry. -/
lemma resolveParentId_valid (questions : List Question) (is_follow_up : Bool)
    (entered : Option Int) :
    resolveParentId questions is_follow_up entered = -1 ∨
      ∃ p ∈ questions, p.id = resolveParentId questions is_follow_up entered := by
  rw [resolveParentId.eq_def]
  cases is_follow_up with
  | false => simp
  | true =>
    cases entered with
    | none => simp
    | some pid =>
      simp only [if_true]
      by_cases h : (questions.any fun w => w.id == pid) = true
      · rw [if_pos h]
        right
        rcases List.any_eq_true.mp h with ⟨p, hp, hbeq⟩
        exact ⟨p, hp, beq_iff_eq.mp hbeq⟩
      · rw [if_neg h]; left; rfl

/-- Claim C3 (amended): the parent check lives in the interactive ask flow, not in
AddQuestion: AskQuestion resolves a follow-up parent id against the repository and
falls back to the sentinel -1 when it does not resolve, so an entry newly stored by
the ask flow either carries the sentinel or references an entry that existed at
creation time; AddQuestion called directly stores any parent id unchecked. -/
theorem askQuestion_parent_valid (users : List User) (questions : List Question)
    (current_user : User) (to_user_id : Int) (is_follow_up : Bool) (entered : Option Int)
    (text : List Char) (anon_choice : Bool) (q : Question)
    (hq : q ∈ (AskQuestion users questions current_user to_user_id is_follow_up entered
      text anon_choice).2)
    (hnew : q ∉ questions) :
    q.parent_id = -1 ∨ ∃ p ∈ questions, p.id = q.parent_id := by
  by_cases hc : to_user_id = -1
  · rw [AskQuestion, if_pos hc] at hq
    exact absurd hq hnew
  · rw [AskQuestion, if_neg hc] at hq
    cases hr : GetUserByID users to_user_id with
    | none => simp only [hr] at hq; exact absurd hq hnew
    | some recipient =>
      simp only [hr] at hq
      rcases addQuestion_mem _ _ _ _ hq with h | h
      · exact absurd h hnew
      · rw [h]
        exact resolveParentId_valid questions is_follow_up entered

/-- Entry created by the concrete ask-flow instance: the entered parent id 42 does
not resolve, so the stored entry carries the sentinel. -/
def wAsked : Question :=
  { id := 4, parent_id := -1, from_user_id := 2, to_user_id := 1,
    is_anonymous := false, text := ['h'], answer := [] }

/-- Concrete ask-flow instance with an unknown entered parent id. -/
theorem askQuestion_parent_valid_witness :
    wAsked.parent_id = -1 ∨ ∃ p ∈ [dExisting], p.id = wAsked.parent_id :=
  askQuestion_parent_valid [dRecipient] [dExisting] dAsker 1 true (some 42) ['h'] false
    wAsked (by decide) (by decide)

/-! ### Cascade deletion (C2) -/

/-- The id-erase loop of the cascade, written as a filter: under distinct ids, the
collect-then-erase loop of DeleteThreadQuestions removes exactly the collected
entries the actor may delete. -/
lemma dtq_foldl (actor : User) : ∀ (tids : List Int) (acc : List Question),
    (acc.map (fun q => q.id)).Nodup →
    tids.foldl (fun acc tid =>
      match acc.find? (fun q => q.id == tid) with
      | none => acc
      | some thread => if deleteDenied thread actor then acc else eraseQuestionId acc tid) acc
    = acc.filter (fun q => !(tids.contains q.id && !(deleteDenied q actor))) := by
  intro tids
  induction tids with
  | nil =>
    intro acc h
    simp
  | cons tid rest ih =>
    intro acc h
    rw [List.foldl_cons]
    cases hf : acc.find? (fun q => q.id == tid) with
    | none =>
      simp only [hf]
      rw [ih acc h]
      apply List.filter_congr
      intro q hq
      have hne : ¬(q.id == tid) = true := List.find?_eq_none.mp hf q hq
      have hqt : q.id ≠ tid := fun he => hne (beq_iff_eq.mpr he)
      simp [List.contains_cons, hqt]
    | some thread =>
      simp only [hf]
      have hmem := List.mem_of_find?_eq_some hf
      have hpa := List.find?_some hf
      have htid : thread.id = tid := beq_iff_eq.mp hpa
      by_cases hd : deleteDenied thread actor = true
      · rw [if_pos hd, ih acc h]
        apply List.filter_congr
        intro q hq
        by_cases hqt : q.id = tid
        · have hqthread : q = thread :=
            List.inj_on_of_nodup_map h hq hmem (by rw [hqt, htid])
          rw [hqthread]
          simp [List.contains_cons, htid, hd]
        · simp [List.contains_cons, hqt]
      · have hd' : deleteDenied thread actor = false := by
          cases hb : deleteDenied thread actor with
          | false => rfl
          | true => exact absurd hb hd
        rw [if_neg hd]
        have hnodup' : ((eraseQuestionId acc tid).map (fun q => q.id)).Nodup :=
          List.Nodup.sublist ((List.filter_sublist acc).map _) h
        rw [ih (eraseQuestionId acc tid) hnodup', eraseQuestionId, List.filter_filter]
        apply List.filter_congr
        intro q hq
        by_cases hqt : q.id = tid
        · have hqthread : q = thread :=
            List.inj_on_of_nodup_map h hq hmem (by rw [hqt, htid])
          rw [hqthread]
          simp [List.contains_cons, htid, hd']
        · simp [List.contains_cons, hqt]
    
/-- Under distinct ids the cascade keeps exactly the entries that are not deletable
direct replies of the given parent. -/
lemma deleteThreadQuestions_filter (questions : List Question) (parent_id : Int)
    (actor : User) (h : (questions.map (fun q => q.id)).Nodup) :
    DeleteThreadQuestions questions parent_id actor =
      questions.filter (fun q => !((q.parent_id == parent_id) && !(deleteDenied q actor))) := by
  rw [DeleteThreadQuestions, dtq_foldl actor _ _ h]
  apply List.filter_congr
  intro q hq
  have hc : ((questions.filter (fun w => w.parent_id == parent_id)).map
      (fun w => w.id)).contains q.id = (q.parent_id == parent_id) := by
    cases hp : (q.parent_id == parent_id) with
    | true =>
      exact List.elem_eq_true_of_mem
        (List.mem_map.mpr ⟨q, List.mem_filter.mpr ⟨hq, hp⟩, rfl⟩)
    | false =>
      cases hcc : ((questions.filter (fun w => w.parent_id == parent_id)).map
          (fun w => w.id)).contains q.id with
      | false => rfl
      | true =>
        exfalso
        rcases List.mem_map.mp (List.mem_of_elem_eq_true hcc) with ⟨w, hw, hid⟩
        have hwq : w ∈ questions := List.mem_of_mem_filter hw
        have : w = q := List.inj_on_of_nodup_map h hwq hq hid
        rw [this] at hw
        rw [(List.mem_filter.mp hw).2] at hp
        exact absurd hp (by decide)
  rw [hc]

/-- Lookup of a stored entry by its own id, under distinct ids. -/
lemma find?_id_eq_some (questions : List Question) (P : Question)
    (h : (questions.map (fun q => q.id)).Nodup) (hP : P ∈ questions) :
    questions.find? (fun q => q.id == P.id) = some P := by
  cases hf : questions.find? (fun q => q.id == P.id) with
  | none =>
    exact absurd (beq_iff_eq.mpr rfl) (List.find?_eq_none.mp hf P hP)
  | some t =>
    have ht := List.mem_of_find?_eq_some hf
    have hpa := List.find?_some hf
    have : t = P := List.inj_on_of_nodup_map h ht hP (beq_iff_eq.mp hpa)
    rw [this]

/-- Claim C2: deleting an entry as its author succeeds and removes exactly the entry
itself together with those direct replies the actor may delete (its own, or all of
them for an admin); a direct reply authored by someone else survives a non-admin
delete; and deleting an id that matches no entry fails and leaves the repository
unchanged. -/
theorem deleteQuestion_cascade (questions : List Question) (actor : User)
    (hnd : (questions.map (fun q => q.id)).Nodup) (P : Question) (hP : P ∈ questions)
    (hauth : P.from_user_id = actor.id) :
    (DeleteQuestion questions P.id actor).1 = true ∧
    (∀ q : Question, q ∈ (DeleteQuestion questions P.id actor).2 ↔
      (q ∈ questions ∧ q.id ≠ P.id ∧
        ¬(q.parent_id = P.id ∧ (q.from_user_id = actor.id ∨ actor.role = Role.ADMIN)))) ∧
    (∀ pid : Int, (∀ q ∈ questions, q.id ≠ pid) →
      DeleteQuestion questions pid actor = (false, questions)) := by
  have hdenied : deleteDenied P actor = false := by
    rw [deleteDenied]
    simp [hauth]
  have hDQ : DeleteQuestion questions P.id actor =
      (true, eraseQuestionId (DeleteThreadQuestions questions P.id actor) P.id) := by
    rw [DeleteQuestion, find?_id_eq_some questions P hnd hP]
    simp [hdenied]
  refine ⟨by rw [hDQ], ?_, ?_⟩
  · intro q
    rw [hDQ]
    simp only
    rw [eraseQuestionId, deleteThreadQuestions_filter questions P.id actor hnd,
      List.filter_filter, List.mem_filter]
    constructor
    · rintro ⟨hq, hbool⟩
      refine ⟨hq, ?_, ?_⟩
      · intro he
        rw [he] at hbool
        simp [deleteDenied] at hbool
      · rintro ⟨hpar, hallow⟩
        rw [hpar] at hbool
        rcases hallow with ha | ha <;>
          simp [deleteDenied, ha] at hbool
    · rintro ⟨hq, hne, hnotrep⟩
      refine ⟨hq, ?_⟩
      have hne' : (q.id == P.id) = false := by
        cases hb : (q.id == P.id) with
        | false => rfl
        | true => exact absurd (beq_iff_eq.mp hb) hne
      by_cases hpar : q.parent_id = P.id
      · have hden : deleteDenied q actor = true := by
          rw [deleteDenied]
          cases hrole : actor.role with
          | ADMIN => exact absurd ⟨hpar, Or.inr hrole⟩ hnotrep
          | REGULAR_USER =>
            have hfrom : q.from_user_id ≠ actor.id :=
              fun hfe => hnotrep ⟨hpar, Or.inl hfe⟩
            have : (q.from_user_id == actor.id) = false := by
              cases hb : (q.from_user_id == actor.id) with
              | false => rfl
              | true => exact absurd (beq_iff_eq.mp hb) hfrom
            simp [this]
        simp [hden, hne']
      · have hpar' : (q.parent_id == P.id) = false := by
          cases hb : (q.parent_id == P.id) with
          | false => rfl
          | true => exact absurd (beq_iff_eq.mp hb) hpar
        simp [hpar', hne']
  · intro pid hall
    have hnone : questions.find? (fun q => q.id == pid) = none := by
      apply List.find?_eq_none.mpr
      intro q hq hb
      exact hall q hq (beq_iff_eq.mp hb)
    rw [DeleteQuestion, hnone]

/-- Actor of the concrete cascade instance: a regular user with id 100. -/
def cActor : User :=
  { id := 100, name := [], password := [], username := [], email := [],
    allow_anonymous_questions := false, role := Role.REGULAR_USER }

/-- Top-level entry authored by the actor. -/
def cP : Question :=
  { id := 1, parent_id := -1, from_user_id := 100, to_user_id := 100,
    is_anonymous := false, text := [], answer := [] }

/-- Direct reply authored by someone else. -/
def cR1 : Question :=
  { id := 2, parent_id := 1, from_user_id := 200, to_user_id := 100,
    is_anonymous := false, text := [], answer := [] }

/-- Direct reply authored by the actor. -/
def cR2 : Question :=
  { id := 3, parent_id := 1, from_user_id := 100, to_user_id := 100,
    is_anonymous := false, text := [], answer := [] }

/-- Concrete cascade instance: entries 1 and 3 go, the foreign reply 2 survives. -/
theorem deleteQuestion_cascade_witness :
    (DeleteQuestion [cP, cR1, cR2] cP.id cActor).1 = true ∧
    cR1 ∈ (DeleteQuestion [cP, cR1, cR2] cP.id cActor).2 ∧
    cP ∉ (DeleteQuestion [cP, cR1, cR2] cP.id cActor).2 ∧
    cR2 ∉ (DeleteQuestion [cP, cR1, cR2] cP.id cActor).2 := by
  have h := deleteQuestion_cascade [cP, cR1, cR2] cActor (by decide) cP (by decide)
    (by decide)
  exact ⟨h.1, (h.2.1 cR1).mpr (by decide),
    fun hm => absurd ((h.2.1 cP).mp hm) (by decide),
    fun hm => absurd ((h.2.1 cR2).mp hm) (by decide)⟩

end AskMe
